import Mathlib

/-!
# A shallow embedding of the `getstats` plugin's time-series engine

This file models `src/getstats/getstats.py`: the migration manager
(`setup_db`), the metric registry (`ensure_tsi`, `get_tsi`), the sample
accumulator (`ts_variable`, `ts_event`, `reset_sample`), the storage/flush
path (`store_sample` plus the sqlite commit), the query path (`get_data`,
`get_stats`) and the scheduler loop (`scheduler`).

Modelling conventions:
* Timestamps (`datetime`) are `Nat` (`datetime.fromtimestamp(0)` is `0`);
  values are `Int`.
* Python dicts (`plugin.tsi`, `plugin.tst`, the `sample` buffer, the
  `data` field assembled by `get_stats`) are association lists updated in
  place, preserving insertion order, via `dictSet`.
* The sqlite connection is modelled with an explicit split between rows
  already committed (`dataCommitted`) and rows executed inside the open
  transaction but not yet committed (`dataPending`); `db_commit` moves the
  pending rows into the committed list.  Reads through the same
  connection see both (`db_visible`).
* Python exceptions are modelled by returning `Except GErr α × PState`:
  the error propagates but all mutations made before the raise persist in
  the returned state, exactly as in Python.
-/

/-- Errors raised by the plugin code. -/
inductive GErr where
  /-- `ValueError("unknown timeseries")` raised by `get_tsi`. -/
  | unknownMetric : GErr
  /-- `Exception('Database has newer state than expected')` in `setup_db`. -/
  | schemaTooNew : GErr
  /-- `ValueError(f'Invalid migration {i}')` in `setup_db`. -/
  | invalidMigration (i : Nat) : GErr
  /-- sqlite `IntegrityError` from violating `name UNIQUE` on insert. -/
  | uniqueConstraint : GErr
  /-- any exception escaping the RPC fetches in `job` (e.g. `RpcError`). -/
  | rpcFailure : GErr
  deriving DecidableEq, Repr

/-- A row of the `timeseries` table:
`timeseries (id INTEGER PRIMARY KEY, name text UNIQUE, ts_type INTEGER)`. -/
structure TimeseriesRow where
  id : Nat
  name : String
  ts_type : Nat
  deriving DecidableEq, Repr

/-- A row of the `data` table: `data (ts timestamp, tsi INTEGER, value INTEGER)`. -/
structure DataRow where
  ts : Nat
  tsi : Nat
  value : Int
  deriving DecidableEq, Repr

/-- The sqlite database file plus the connection's open transaction. -/
structure Db where
  timeseries : List TimeseriesRow
  /-- `data` rows made durable by a commit. -/
  dataCommitted : List DataRow
  /-- `data` rows inserted on the connection but not yet committed. -/
  dataPending : List DataRow
  /-- rowids present in the `migrations` table. -/
  migRecords : List Nat
  /-- whether the `migrations` table exists. -/
  hasMigTable : Bool
  deriving DecidableEq, Repr

/-- What a `SELECT` on the same connection sees: committed rows plus the
connection's own uncommitted inserts, in rowid (insertion) order. -/
def db_visible (db : Db) : List DataRow :=
  db.dataCommitted ++ db.dataPending

/-- The in-memory plugin state: `plugin.tsi`, `plugin.tst`, the module-level
`sample` dict, `plugin.initialized` (field `inited` here), and the db. -/
structure PState where
  db : Db
  /-- `plugin.tsi`: name → timeseries id cache. -/
  tsi : List (String × Nat)
  /-- `plugin.tst`: name → ts_type cache. -/
  tst : List (String × Nat)
  /-- the module-level `sample` dict: name → accumulated value. -/
  sample : List (String × Int)
  /-- `plugin.initialized`. -/
  inited : Bool
  deriving DecidableEq, Repr

/-- `TS_VARIABLE = 1`. -/
def TS_VARIABLE : Nat := 1

/-- `TS_EVENT = 2`. -/
def TS_EVENT : Nat := 2

/-- Python dict assignment `d[k] = v`: overwrite in place if the key is
present, otherwise append (insertion order preserved). -/
def dictSet {κ α : Type} [DecidableEq κ] : List (κ × α) → κ → α → List (κ × α)
  | [], k, v => [(k, v)]
  | (k', v') :: rest, k, v =>
    if k' = k then (k, v) :: rest else (k', v') :: dictSet rest k v

/-- `SELECT id, ts_type from timeseries WHERE name = ?` (first match). -/
def findTsByName (tbl : List TimeseriesRow) (n : String) : Option TimeseriesRow :=
  tbl.find? (fun r => r.name == n)

/-- `SELECT id, ts_type from timeseries WHERE name = ? and ts_type = ?`. -/
def findTsByNameType (tbl : List TimeseriesRow) (n : String) (t : Nat) :
    Option TimeseriesRow :=
  tbl.find? (fun r => r.name == n && r.ts_type == t)

/-- The rowid sqlite assigns to the next `INSERT INTO timeseries`
(`INTEGER PRIMARY KEY` = max existing id + 1). -/
def nextTsId (tbl : List TimeseriesRow) : Nat :=
  (tbl.map TimeseriesRow.id).foldr max 0 + 1

/-- `ensure_tsi(name, ts_type)` (getstats.py lines 58-77): cache hit returns
the cached id untouched; otherwise query by `(name, ts_type)`; otherwise
`INSERT` (which raises on a duplicate `name`), `commit()` (which also
commits any pending `data` rows of the connection), re-read, cache. -/
def ensure_tsi (s : PState) (name : String) (ts_type : Nat) :
    Except GErr Nat × PState :=
  match s.tsi.lookup name with
  | some i => (.ok i, s)
  | none =>
    match findTsByNameType s.db.timeseries name ts_type with
    | some r =>
      (.ok r.id,
        { s with tsi := dictSet s.tsi name r.id, tst := dictSet s.tst name r.ts_type })
    | none =>
      if (findTsByName s.db.timeseries name).isSome then
        -- the name exists with a different ts_type: INSERT hits name UNIQUE
        (.error .uniqueConstraint, s)
      else
        let i := nextTsId s.db.timeseries
        let s1 : PState :=
          { s with db := { s.db with
              timeseries := s.db.timeseries ++ [⟨i, name, ts_type⟩],
              dataCommitted := s.db.dataCommitted ++ s.db.dataPending,
              dataPending := [] } }
        (.ok i, { s1 with tsi := dictSet s1.tsi name i, tst := dictSet s1.tst name ts_type })

/-- `get_tsi(name)` (lines 80-90): cached id, else table lookup by name,
else `ValueError("unknown timeseries")`; a hit populates both caches. -/
def get_tsi (s : PState) (name : String) : Except GErr Nat × PState :=
  match s.tsi.lookup name with
  | some i => (.ok i, s)
  | none =>
    match findTsByName s.db.timeseries name with
    | none => (.error .unknownMetric, s)
    | some r =>
      (.ok r.id,
        { s with tsi := dictSet s.tsi name r.id, tst := dictSet s.tst name r.ts_type })

/-- `ts_variable(name, value)` (lines 93-98): ensure the series, then
`sample[name] = value` (last write wins).  The `int(value)` coercion is the
identity here since values are already integers. -/
def ts_variable (s : PState) (name : String) (value : Int) :
    Except GErr Unit × PState :=
  match ensure_tsi s name TS_VARIABLE with
  | (.error e, s') => (.error e, s')
  | (.ok _, s') => (.ok (), { s' with sample := dictSet s'.sample name value })

/-- `ts_event(name)` (lines 101-106): no-op before the plugin is ready,
else ensure the series and `sample[name] = sample.get(name, 0) + 1`. -/
def ts_event (s : PState) (name : String) : Except GErr Unit × PState :=
  if s.inited = false then (.ok (), s)
  else
    match ensure_tsi s name TS_EVENT with
    | (.error e, s') => (.error e, s')
    | (.ok _, s') =>
      (.ok (),
        { s' with sample := dictSet s'.sample name ((s'.sample.lookup name).getD 0 + 1) })

/-- The loop body of `store_sample` (lines 109-116): for each buffered
entry, `INSERT INTO data (ts, tsi, value) VALUES (?, get_tsi(name), ?)`.
An exception from `get_tsi` aborts the loop, leaving the inserts already
executed in the connection's open transaction. -/
def store_sample_from (ts : Nat) : List (String × Int) → PState → Except GErr Unit × PState
  | [], s => (.ok (), s)
  | (name, value) :: rest, s =>
    match get_tsi s name with
    | (.error e, s') => (.error e, s')
    | (.ok i, s') =>
      store_sample_from ts rest
        { s' with db := { s'.db with dataPending := s'.db.dataPending ++ [⟨ts, i, value⟩] } }

/-- `store_sample()` with `ts = datetime.now()` passed explicitly. -/
def store_sample (ts : Nat) (s : PState) : Except GErr Unit × PState :=
  store_sample_from ts s.sample s

/-- `reset_sample()` (lines 118-121): zeroes every tracked key in place. -/
def reset_sample (s : PState) : PState :=
  { s with sample := s.sample.map (fun p => (p.1, 0)) }

/-- `plugin.db.commit()`: the open transaction's inserts become durable. -/
def db_commit (s : PState) : PState :=
  { s with db := { s.db with
      dataCommitted := s.db.dataCommitted ++ s.db.dataPending,
      dataPending := [] } }

/-- The flush tail of `job` (lines 228-230): `store_sample()`;
`reset_sample()`; `plugin.db.commit()`.  An exception inside
`store_sample` propagates before the reset and the commit run. -/
def job_flush (ts : Nat) (s : PState) : Except GErr Unit × PState :=
  match store_sample ts s with
  | (.error e, s') => (.error e, s')
  | (.ok _, s') => (.ok (), db_commit (reset_sample s'))

/-- `get_data(name, tsfrom, tsto)` (lines 124-135): `tsfrom` defaults to
`datetime.fromtimestamp(0)`, `tsto` to `datetime.now()` (the `now`
argument); then
`SELECT * FROM data WHERE tsi = get_tsi(name) and ts >= tsfrom and ts <= tsto`
(no ORDER BY: rows come back in rowid order, i.e. insertion order). -/
def get_data (s : PState) (name : String) (tsfrom tsto : Option Nat) (now : Nat) :
    Except GErr (List DataRow) × PState :=
  let f := tsfrom.getD 0
  let t := tsto.getD now
  match get_tsi s name with
  | (.error e, s') => (.error e, s')
  | (.ok i, s') =>
    (.ok ((db_visible s'.db).filter fun r => r.tsi == i && decide (f ≤ r.ts) && decide (r.ts ≤ t)),
      s')

/-- The result-assembly loop of `get_stats` (lines 280-286): the `"data"`
field is a dict keyed by the row's timestamp, so
`result["data"][row_ts] = row_value` in iteration order. -/
def get_stats_data (rows : List DataRow) : List (Nat × Int) :=
  rows.foldl (fun acc r => dictSet acc r.ts r.value) []

/-- One migration entry of the `migrations` list: a bare SQL string, a
tuple whose head is the statement, or a malformed entry. -/
inductive MigEntry where
  | str (sql : String) : MigEntry
  | tup (sql : String) (args : List Int) : MigEntry
  | bad : MigEntry
  deriving DecidableEq, Repr

/-- The statement text of an entry, `none` when the entry fails the
validity check of lines 160-163. -/
def migStmt : MigEntry → Option String
  | .str sql => some sql
  | .tup sql _ => some sql
  | .bad => none

/-- `SELECT max(id) FROM migrations` with `None → 0`. -/
def maxId (l : List Nat) : Nat := l.foldr max 0

/-- The migration loop of `setup_db` (lines 156-167): for each remaining
entry (1-based counter `i`), validate it (`ValueError(f'Invalid migration
{i}')` on failure), execute its statement, and insert a `migrations` row
(rowid = max + 1).  Returns the executed statements for observation. -/
def applyMigs : List MigEntry → Nat → Db → List String → Except GErr Unit × Db × List String
  | [], _, d, ops => (.ok (), d, ops)
  | m :: rest, i, d, ops =>
    match migStmt m with
    | none => (.error (.invalidMigration (i + 1)), d, ops)
    | some sql =>
      applyMigs rest (i + 1)
        { d with migRecords := d.migRecords ++ [maxId d.migRecords + 1] }
        (ops ++ [sql])

/-- `setup_db` (lines 138-172): create the `migrations` table if missing,
read `old_ver = max(id)` (0 when empty), raise `SchemaTooNew` when it
exceeds the known migration count, else apply `migrations[old_ver:]`. -/
def setup_db (migs : List MigEntry) (d : Db) : Except GErr Unit × Db × List String :=
  let d1 := { d with hasMigTable := true }
  let old_ver := maxId d1.migRecords
  if migs.length < old_ver then (.error .schemaTooNew, d1, [])
  else applyMigs (migs.drop old_ver) 0 d1 []

/-- The scheduler loop (lines 233-242) driven for `fuel` iterations:
`job(plugin)` is called once immediately and then once per pending tick;
`scheduler` installs no exception handler, so a raise from any `job` call
escapes the function (ending the thread).  `j i` is the outcome of the
`i`-th cycle; the result lists the cycles that actually ran, paired with
the exception that escaped the loop, if any. -/
def scheduler_run (j : Nat → Option GErr) : Nat → Nat → List Nat × Option GErr
  | 0, _ => ([], none)
  | fuel + 1, i =>
    match j i with
    | some e => ([i], some e)
    | none =>
      let r := scheduler_run j fuel (i + 1)
      (i :: r.1, r.2)

/-- The id `get_tsi` resolves a name to in state `s`: the cached id if
present, else the id stored in the `timeseries` table. -/
def resolveId (s : PState) (n : String) : Option Nat :=
  match s.tsi.lookup n with
  | some i => some i
  | none => (findTsByName s.db.timeseries n).map TimeseriesRow.id

/-- The rows the `store_sample` loop inserts, as a function of the
resolver: one row per entry until the first unresolvable name. -/
def processRows (ts : Nat) (resolve : String → Option Nat) :
    List (String × Int) → List DataRow
  | [] => []
  | (n, v) :: rest =>
    match resolve n with
    | none => []
    | some i => ⟨ts, i, v⟩ :: processRows ts resolve rest

/-- The exception the `store_sample` loop raises, if any. -/
def processErr (resolve : String → Option Nat) : List (String × Int) → Option GErr
  | [] => none
  | (n, _) :: rest =>
    match resolve n with
    | none => some .unknownMetric
    | some _ => processErr resolve rest

/-- Repackage an optional error as an `Except` result. -/
def exceptOfErr : Option GErr → Except GErr Unit
  | none => .ok ()
  | some e => .error e

/-- `ensure_tsi` succeeds on `name` with type `t` iff the name is cached,
or stored with exactly type `t`, or entirely fresh (insertable). -/
def canEnsure (s : PState) (name : String) (t : Nat) : Prop :=
  s.tsi.lookup name ≠ none ∨ (findTsByNameType s.db.timeseries name t).isSome = true ∨
    findTsByName s.db.timeseries name = none

instance (s : PState) (name : String) (t : Nat) : Decidable (canEnsure s name t) := by
  unfold canEnsure; infer_instance

/-- `k` successive `ts_event(name)` calls (the intake path firing `k`
times within one open window); an exception stops the sequence. -/
def iter_ts_event (name : String) : Nat → PState → Except GErr Unit × PState
  | 0, s => (.ok (), s)
  | k + 1, s =>
    match ts_event s name with
    | (.error e, s') => (.error e, s')
    | (.ok _, s') => iter_ts_event name k s'

/-- Successive `ts_variable(name, v)` calls, one per value in the list. -/
def run_ts_variables (name : String) : List Int → PState → Except GErr Unit × PState
  | [], s => (.ok (), s)
  | v :: rest, s =>
    match ts_variable s name v with
    | (.error e, s') => (.error e, s')
    | (.ok _, s') => run_ts_variables name rest s'

/-- A concrete state for the flush counterexample: series `"a"` is
registered and cached, the buffer holds `"a"` and an unregistered `"b"`. -/
def c1State : PState :=
  { db := { timeseries := [⟨1, "a", 1⟩], dataCommitted := [], dataPending := [],
            migRecords := [1, 2, 3, 4, 5], hasMigTable := true },
    tsi := [("a", 1)], tst := [("a", 1)],
    sample := [("a", 5), ("b", 7)], inited := true }

/-- A concrete state whose buffered names all resolve. -/
def w1State : PState :=
  { db := { timeseries := [⟨1, "a", 1⟩, ⟨2, "b", 2⟩], dataCommitted := [], dataPending := [],
            migRecords := [1, 2, 3, 4, 5], hasMigTable := true },
    tsi := [("a", 1)], tst := [("a", 1)],
    sample := [("a", 5), ("b", 7)], inited := true }

/-- A cycle-outcome function: the first cycle's RPC fetch raises, every
later cycle would succeed. -/
def c2Job : Nat → Option GErr := fun i => if i = 0 then some .rpcFailure else none

/-- A concrete state with two committed data points for series `"a"`. -/
def w3State : PState :=
  { db := { timeseries := [⟨1, "a", 1⟩], dataCommitted := [⟨10, 1, 3⟩, ⟨20, 1, 4⟩],
            dataPending := [], migRecords := [1, 2, 3, 4, 5], hasMigTable := true },
    tsi := [("a", 1)], tst := [("a", 1)], sample := [], inited := true }

/-- A concrete database whose persisted version (2) exceeds a one-entry
migration list. -/
def newerDb : Db :=
  { timeseries := [], dataCommitted := [], dataPending := [],
    migRecords := [1, 2], hasMigTable := true }

/-- A concrete database already at version 2 for a two-entry list. -/
def currentDb : Db :=
  { timeseries := [], dataCommitted := [], dataPending := [],
    migRecords := [1, 2], hasMigTable := true }

/-- A freshly initialized state: empty tables, empty caches, empty buffer. -/
def z5State : PState :=
  { db := { timeseries := [], dataCommitted := [], dataPending := [],
            migRecords := [1, 2, 3, 4, 5], hasMigTable := true },
    tsi := [], tst := [], sample := [], inited := true }

/-! ## Basic lemmas about the dict model -/

/-- Looking a key up after a Python dict assignment. -/
theorem lookup_dictSet {κ α : Type} [DecidableEq κ] (l : List (κ × α)) (k k' : κ) (v : α) :
    (dictSet l k v).lookup k' = if k' = k then some v else l.lookup k' := by
  induction l with
  | nil =>
    simp only [dictSet, List.lookup]
    by_cases hk : k' = k
    · simp [hk]
    · simp [hk, beq_false_of_ne hk]
  | cons p rest ih =>
    obtain ⟨a, b⟩ := p
    by_cases hak : a = k
    · subst hak
      simp only [dictSet, if_pos rfl, List.lookup]
      by_cases hk : k' = a
      · simp [hk]
      · simp [hk, beq_false_of_ne hk]
    · simp only [dictSet, if_neg hak, List.lookup, ih]
      by_cases hk : k' = a
      · subst hk
        simp [List.lookup, hak]
      · simp [beq_false_of_ne hk]

/-- A dict assignment adds no key beyond the assigned one. -/
theorem keys_dictSet_subset {κ α : Type} [DecidableEq κ] (l : List (κ × α)) (k m : κ) (v : α)
    (hm : m ∈ (dictSet l k v).map Prod.fst) : m ∈ l.map Prod.fst ∨ m = k := by
  induction l with
  | nil => simp [dictSet] at hm; right; exact hm
  | cons p rest ih =>
    obtain ⟨a, b⟩ := p
    by_cases hak : a = k
    · subst hak
      simp [dictSet] at hm
      rcases hm with h | h
      · right; exact h
      · left; simp [h]
    · simp only [dictSet, if_neg hak, List.map, List.mem_cons] at hm
      rcases hm with h | h
      · left; simp [h]
      · rcases ih h with h' | h'
        · left; simp at h' ⊢; right; exact h'
        · right; exact h'

/-- A dict assignment keeps the keys duplicate-free. -/
theorem nodup_keys_dictSet {κ α : Type} [DecidableEq κ] (l : List (κ × α)) (k : κ) (v : α)
    (hl : (l.map Prod.fst).Nodup) : ((dictSet l k v).map Prod.fst).Nodup := by
  induction l with
  | nil => simp [dictSet]
  | cons p rest ih =>
    obtain ⟨a, b⟩ := p
    simp only [List.map, List.nodup_cons] at hl
    by_cases hak : a = k
    · subst hak
      simpa [dictSet] using hl
    · simp only [dictSet, if_neg hak, List.map, List.nodup_cons]
      refine ⟨fun hmem => ?_, ih hl.2⟩
      rcases keys_dictSet_subset rest k a v hmem with h | h
      · exact hl.1 h
      · exact hak h

/-! ## Registry lemmas -/

/-- `get_tsi` on a cached name returns the cached id, untouched state. -/
theorem get_tsi_cached (s : PState) (n : String) (i : Nat)
    (h : s.tsi.lookup n = some i) : get_tsi s n = (.ok i, s) := by
  simp [get_tsi, h]

/-- `get_tsi` raises `unknown timeseries` exactly when the name resolves
nowhere, and mutates nothing in that case. -/
theorem get_tsi_err (s : PState) (n : String)
    (h : resolveId s n = none) : get_tsi s n = (.error .unknownMetric, s) := by
  unfold resolveId at h
  cases hc : s.tsi.lookup n with
  | some j => rw [hc] at h; simp at h
  | none =>
    rw [hc] at h
    cases hf : findTsByName s.db.timeseries n with
    | none => simp [get_tsi, hc, hf]
    | some r => rw [hf] at h; simp at h

/-- A successful `get_tsi` returns the resolved id, touches neither the
database nor the buffer, and leaves every name's resolution unchanged. -/
theorem get_tsi_ok (s : PState) (n : String) (i : Nat)
    (h : resolveId s n = some i) :
    ∃ s', get_tsi s n = (.ok i, s') ∧ s'.db = s.db ∧ s'.sample = s.sample ∧
      s'.inited = s.inited ∧ (∀ m, resolveId s' m = resolveId s m) := by
  unfold resolveId at h
  cases hc : s.tsi.lookup n with
  | some j =>
    rw [hc] at h
    simp only [Option.some.injEq] at h
    subst h
    exact ⟨s, get_tsi_cached s n j hc, rfl, rfl, rfl, fun m => rfl⟩
  | none =>
    rw [hc] at h
    cases hf : findTsByName s.db.timeseries n with
    | none => rw [hf] at h; simp at h
    | some r =>
      rw [hf] at h
      simp only [Option.map_some', Option.some.injEq] at h
      subst h
      refine ⟨{ s with tsi := dictSet s.tsi n r.id, tst := dictSet s.tst n r.ts_type },
        ?_, rfl, rfl, rfl, ?_⟩
      · simp [get_tsi, hc, hf]
      · intro m
        unfold resolveId
        by_cases hm : m = n
        · subst hm
          rw [lookup_dictSet, if_pos rfl, hc, hf]
          rfl
        · rw [lookup_dictSet, if_neg hm]

/-! ## Characterization of the store loop -/

theorem store_sample_from_spec (ts : Nat) (entries : List (String × Int)) :
    ∀ s : PState, ∃ s',
      store_sample_from ts entries s = (exceptOfErr (processErr (resolveId s) entries), s') ∧
      s'.db.dataPending = s.db.dataPending ++ processRows ts (resolveId s) entries ∧
      s'.db.dataCommitted = s.db.dataCommitted ∧
      s'.db.timeseries = s.db.timeseries ∧
      s'.db.migRecords = s.db.migRecords ∧
      s'.db.hasMigTable = s.db.hasMigTable ∧
      s'.sample = s.sample ∧ s'.inited = s.inited ∧
      (∀ m, resolveId s' m = resolveId s m) := by
  induction entries with
  | nil =>
    intro s
    exact ⟨s, rfl, by simp [processRows], rfl, rfl, rfl, rfl, rfl, rfl, fun m => rfl⟩
  | cons p rest ih =>
    intro s
    obtain ⟨n, v⟩ := p
    cases hr : resolveId s n with
    | none =>
      refine ⟨s, ?_, ?_, rfl, rfl, rfl, rfl, rfl, rfl, fun m => rfl⟩
      · simp [store_sample_from, get_tsi_err s n hr, processErr, hr, exceptOfErr]
      · simp [processRows, hr]
    | some i =>
      obtain ⟨sg, hg, hdb, hsm, hin, hres⟩ := get_tsi_ok s n i hr
      obtain ⟨s', h1, h2, h3, h4, h5, h6, h7, h8, h9⟩ :=
        ih { sg with db := { sg.db with dataPending := sg.db.dataPending ++ [⟨ts, i, v⟩] } }
      have hres1 : (resolveId { sg with db :=
          { sg.db with dataPending := sg.db.dataPending ++ [⟨ts, i, v⟩] } }) = resolveId s := by
        funext m
        exact hres m
      rw [hres1] at h1 h2 h9
      refine ⟨s', ?_, ?_, ?_, ?_, ?_, ?_, ?_, ?_, h9⟩
      · simp only [store_sample_from, hg, h1, processErr, hr]
      · rw [h2]
        simp only [hdb, processRows, hr, Option.getD_some]
        simp [List.append_assoc]
      · rw [h3]; simp [hdb]
      · rw [h4]; simp [hdb]
      · rw [h5]; simp [hdb]
      · rw [h6]; simp [hdb]
      · rw [h7, hsm]
      · rw [h8, hin]

theorem processRows_all (ts : Nat) (resolve : String → Option Nat)
    (l : List (String × Int)) (h : ∀ p ∈ l, resolve p.1 ≠ none) :
    processRows ts resolve l = l.map (fun p => ⟨ts, (resolve p.1).getD 0, p.2⟩) ∧
    processErr resolve l = none := by
  induction l with
  | nil => simp [processRows, processErr]
  | cons p rest ih =>
    obtain ⟨n, v⟩ := p
    have hn : resolve n ≠ none := h (n, v) (List.mem_cons_self _ _)
    cases hr : resolve n with
    | none => exact absurd hr hn
    | some i =>
      have ih' := ih (fun q hq => h q (List.mem_cons_of_mem _ hq))
      simp [processRows, processErr, hr, ih'.1, ih'.2]

theorem processRows_pre (ts : Nat) (resolve : String → Option Nat)
    (l : List (String × Int)) :
    ∃ pre post, l = pre ++ post ∧
      processRows ts resolve l = pre.map (fun p => ⟨ts, (resolve p.1).getD 0, p.2⟩) := by
  induction l with
  | nil => exact ⟨[], [], rfl, by simp [processRows]⟩
  | cons p rest ih =>
    obtain ⟨n, v⟩ := p
    cases hr : resolve n with
    | none => exact ⟨[], (n, v) :: rest, rfl, by simp [processRows, hr]⟩
    | some i =>
      obtain ⟨pre, post, hsplit, hrows⟩ := ih
      exact ⟨(n, v) :: pre, post, by simp [hsplit], by simp [processRows, hr, hrows]⟩

/-- C1 (counterexample): with series `"a"` registered but `"b"` never
registered, flushing the buffer `{"a": 5, "b": 7}` at timestamp 100 raises
partway: the row for `"a"` is left in the open transaction and the next
commit on the connection (here the next cycle's `plugin.db.commit()`)
makes it durable while `"b"` never gets a data point — a partially
committed window becomes durable, refuting batch-or-nothing. -/
theorem c1_counterexample :
    (job_flush 100 c1State).1 = .error .unknownMetric ∧
    ((job_flush 100 c1State).2).db.dataCommitted = [] ∧
    ((job_flush 100 c1State).2).db.dataPending = [⟨100, 1, 5⟩] ∧
    (db_commit (job_flush 100 c1State).2).db.dataCommitted = [⟨100, 1, 5⟩] ∧
    ((db_commit (job_flush 100 c1State).2).db.dataCommitted.any
      (fun r => r.ts == 100 && r.value == 5)) = true ∧
    ((db_commit (job_flush 100 c1State).2).db.dataCommitted.any
      (fun r => r.value == 7)) = false := by
  exact ⟨rfl, rfl, rfl, rfl, rfl, rfl⟩

/-- C1 (amended): a failure-free flush commits the whole batch — one row
per buffered entry, all sharing the cycle timestamp — and resets the
buffer; but on a failure partway through, the rows already inserted stay
pending in the connection's open transaction (they are not rolled back)
and the next commit on the connection makes exactly them durable. -/
theorem c1_flush_batch_amended :
    (∀ (s : PState) (ts : Nat),
      (∀ p ∈ s.sample, resolveId s p.1 ≠ none) →
      ∃ s', job_flush ts s = (.ok (), s') ∧
        s'.db.dataCommitted = s.db.dataCommitted ++ s.db.dataPending ++
          s.sample.map (fun p => ⟨ts, (resolveId s p.1).getD 0, p.2⟩) ∧
        s'.db.dataPending = [] ∧
        s'.sample = s.sample.map (fun p => (p.1, 0))) ∧
    (∀ (s : PState) (ts : Nat) (e : GErr) (s' : PState),
      job_flush ts s = (.error e, s') →
      s'.db.dataCommitted = s.db.dataCommitted ∧
      s'.sample = s.sample ∧
      (∃ pre post, s.sample = pre ++ post ∧
        s'.db.dataPending = s.db.dataPending ++
          pre.map (fun p => ⟨ts, (resolveId s p.1).getD 0, p.2⟩)) ∧
      (db_commit s').db.dataCommitted = s.db.dataCommitted ++ s'.db.dataPending) := by
  constructor
  · intro s ts h
    obtain ⟨s1, hst, hpend, hcom, _, _, _, hsam, _, _⟩ :=
      store_sample_from_spec ts s.sample s
    obtain ⟨hrows, herr⟩ := processRows_all ts (resolveId s) s.sample h
    refine ⟨db_commit (reset_sample s1), ?_, ?_, rfl, ?_⟩
    · simp only [job_flush, store_sample, hst, herr, exceptOfErr]
    · simp only [db_commit, reset_sample, hpend, hcom, hrows, List.append_assoc]
    · simp only [db_commit, reset_sample, hsam]
  · intro s ts e s' hj
    obtain ⟨s1, hst, hpend, hcom, _, _, _, hsam, _, _⟩ :=
      store_sample_from_spec ts s.sample s
    cases hE : processErr (resolveId s) s.sample with
    | none =>
      rw [hE] at hst
      simp only [job_flush, store_sample, hst, exceptOfErr] at hj
      injection hj with h1 _
      exact Except.noConfusion h1
    | some e' =>
      rw [hE] at hst
      simp only [job_flush, store_sample, hst, exceptOfErr, Prod.mk.injEq,
        Except.error.injEq] at hj
      obtain ⟨he, hs⟩ := hj
      subst hs
      obtain ⟨pre, post, hsplit, hrows⟩ := processRows_pre ts (resolveId s) s.sample
      refine ⟨hcom, hsam, ⟨pre, post, hsplit, ?_⟩, ?_⟩
      · rw [hpend, hrows]
      · simp only [db_commit, hcom]

/-- C1 (witness): the amended flush theorem applied at the concrete state
`w1State`, whose two buffered names both resolve. -/
theorem c1_flush_batch_amended_witness :
    ∃ s', job_flush 100 w1State = (.ok (), s') ∧
      s'.db.dataCommitted = w1State.db.dataCommitted ++ w1State.db.dataPending ++
        w1State.sample.map (fun p => ⟨100, (resolveId w1State p.1).getD 0, p.2⟩) ∧
      s'.db.dataPending = [] ∧
      s'.sample = w1State.sample.map (fun p => (p.1, 0)) :=
  c1_flush_batch_amended.1 w1State 100 (by decide)

theorem range_map_shift (start k : Nat) :
    start :: (List.range k).map (start + 1 + ·) = (List.range (k + 1)).map (start + ·) := by
  rw [List.range_succ_eq_map]
  simp only [List.map_cons, Nat.add_zero, List.map_map]
  congr 1
  apply List.map_congr_left
  intro a _
  simp only [Function.comp_apply]
  omega

theorem scheduler_run_stops (j : Nat → Option GErr) (e : GErr) :
    ∀ (k fuel start : Nat), (∀ i, i < k → j (start + i) = none) → j (start + k) = some e →
    k < fuel →
    scheduler_run j fuel start = ((List.range (k + 1)).map (start + ·), some e) := by
  intro k
  induction k with
  | zero =>
    intro fuel start _ hk hfuel
    match fuel, hfuel with
    | fuel + 1, _ =>
      simp only [scheduler_run]
      rw [Nat.add_zero] at hk
      rw [hk]
      simp [List.range_succ]
  | succ m ih =>
    intro fuel start hpre hk hfuel
    match fuel, hfuel with
    | fuel + 1, hfuel =>
      have h0 : j start = none := by
        have := hpre 0 (Nat.succ_pos m)
        simpa using this
      simp only [scheduler_run, h0]
      have ih' := ih fuel (start + 1)
        (fun i hi => by
          have := hpre (i + 1) (Nat.succ_lt_succ hi)
          rwa [show start + (i + 1) = start + 1 + i by omega] at this)
        (by rwa [show start + (m + 1) = start + 1 + m by omega] at hk)
        (Nat.lt_of_succ_lt_succ hfuel)
      rw [ih']
      refine Prod.ext ?_ rfl
      exact range_map_shift start (m + 1)


/-- C2 (counterexample): with the very first cycle raising (e.g. the RPC
fetch failing) and every later cycle healthy, the exception escapes the
`scheduler` loop: only cycle 0 ever runs, the loop terminates with the
exception, and the next scheduled cycle (cycle 1) never fires. -/
theorem c2_counterexample :
    scheduler_run c2Job 5 0 = ([0], some .rpcFailure) ∧
    (scheduler_run c2Job 5 0).2 ≠ none ∧
    1 ∉ (scheduler_run c2Job 5 0).1 := by
  refine ⟨rfl, ?_, by decide⟩
  intro h
  rw [show (scheduler_run c2Job 5 0).2 = some GErr.rpcFailure from rfl] at h
  exact Option.noConfusion h

/-- C2 (amended): `scheduler` installs no exception handler, so when cycle
`k` is the first to raise, the loop executes exactly cycles `0..k`, the
exception propagates out of the loop, and no later cycle ever fires. -/
theorem c2_scheduler_amended (j : Nat → Option GErr) (e : GErr) (k fuel : Nat)
    (hpre : ∀ i, i < k → j i = none) (hk : j k = some e) (hfuel : k < fuel) :
    scheduler_run j fuel 0 = (List.range (k + 1), some e) ∧
    ∀ m, m > k → m ∉ (scheduler_run j fuel 0).1 := by
  have h := scheduler_run_stops j e k fuel 0
    (fun i hi => by simpa using hpre i hi) (by simpa using hk) hfuel
  have hmap : (List.range (k + 1)).map (0 + ·) = List.range (k + 1) := by simp
  rw [hmap] at h
  refine ⟨h, ?_⟩
  intro m hm hmem
  rw [h] at hmem
  simp only [List.mem_range] at hmem
  omega

/-- C2 (witness): the amended scheduler theorem at the concrete outcome
function `c2Job`, failing cycle 0, fuel 5. -/
theorem c2_scheduler_amended_witness :
    scheduler_run c2Job 5 0 = (List.range 1, some .rpcFailure) ∧
    ∀ m, m > 0 → m ∉ (scheduler_run c2Job 5 0).1 :=
  c2_scheduler_amended c2Job .rpcFailure 0 5
    (fun i hi => absurd hi (Nat.not_lt_zero i)) rfl (by omega)

theorem get_tsi_preserves (s : PState) (n : String) :
    ((get_tsi s n).2).db = s.db ∧ ((get_tsi s n).2).sample = s.sample := by
  unfold get_tsi
  cases s.tsi.lookup n with
  | some i => exact ⟨rfl, rfl⟩
  | none =>
    cases findTsByName s.db.timeseries n with
    | none => exact ⟨rfl, rfl⟩
    | some r => exact ⟨rfl, rfl⟩

theorem processRows_ts_const (ts : Nat) (resolve : String → Option Nat)
    (l : List (String × Int)) : ∀ r ∈ processRows ts resolve l, r.ts = ts := by
  induction l with
  | nil => simp [processRows]
  | cons p rest ih =>
    obtain ⟨n, v⟩ := p
    cases hr : resolve n with
    | none => simp [processRows, hr]
    | some i =>
      simp only [processRows, hr]
      intro r hm
      rcases List.mem_cons.mp hm with h | h
      · rw [h]
      · exact ih r h

theorem sorted_of_all_eq (l : List Nat) (c : Nat) (h : ∀ x ∈ l, x = c) :
    l.Sorted (· ≤ ·) := by
  induction l with
  | nil => simp
  | cons a rest ih =>
    rw [List.sorted_cons]
    refine ⟨fun b hb => ?_, ih fun x hx => h x (List.mem_cons_of_mem _ hx)⟩
    rw [h a (List.mem_cons_self _ _), h b (List.mem_cons_of_mem _ hb)]

/-- C3: the range query returns rows ordered by timestamp ascending.  In
the embedding the `SELECT` (which has no ORDER BY) scans rows in insertion
order, so the guarantee is: (i) on any table whose rows are
timestamp-sorted, `get_data` returns a timestamp-sorted result; and (ii)
the only writer, the flush path, preserves that sortedness whenever the
cycle timestamp is not behind the stored rows (the clock is monotone). -/
theorem c3_get_data_sorted :
    (∀ (s : PState) (name : String) (tsfrom tsto : Option Nat) (now : Nat)
       (rows : List DataRow) (s' : PState),
      List.Sorted (· ≤ ·) ((db_visible s.db).map DataRow.ts) →
      get_data s name tsfrom tsto now = (.ok rows, s') →
      List.Sorted (· ≤ ·) (rows.map DataRow.ts)) ∧
    (∀ (s : PState) (ts : Nat) (s' : PState),
      List.Sorted (· ≤ ·) ((db_visible s.db).map DataRow.ts) →
      (∀ r ∈ db_visible s.db, r.ts ≤ ts) →
      job_flush ts s = (.ok (), s') →
      List.Sorted (· ≤ ·) ((db_visible s'.db).map DataRow.ts)) := by
  constructor
  · intro s name tsfrom tsto now rows s' hsort hgd
    unfold get_data at hgd
    cases hg : get_tsi s name with
    | mk er sg =>
      rw [hg] at hgd
      cases er with
      | error e => exact absurd hgd (by simp)
      | ok i =>
        simp only [Prod.mk.injEq, Except.ok.injEq] at hgd
        obtain ⟨hrows, hs'⟩ := hgd
        have hdb : sg.db = s.db := by
          have := (get_tsi_preserves s name).1
          rwa [hg] at this
        rw [← hrows, hdb]
        exact (hsort.sublist ((List.filter_sublist _).map DataRow.ts))
  · intro s ts s' hsort hle hj
    obtain ⟨s1, hst, hpend, hcom, _, _, _, _, _, _⟩ :=
      store_sample_from_spec ts s.sample s
    cases hE : processErr (resolveId s) s.sample with
    | some e =>
      rw [hE] at hst
      simp only [job_flush, store_sample, hst, exceptOfErr] at hj
      injection hj with h1 _
      exact Except.noConfusion h1
    | none =>
      rw [hE] at hst
      simp only [job_flush, store_sample, hst, exceptOfErr, Prod.mk.injEq] at hj
      obtain ⟨_, hs'⟩ := hj
      have hvis : db_visible s'.db =
          db_visible s.db ++ processRows ts (resolveId s) s.sample := by
        rw [← hs']
        simp only [db_commit, reset_sample, db_visible, hpend, hcom, List.append_assoc,
          List.append_nil]
      rw [hvis, List.map_append]
      refine List.pairwise_append.mpr ⟨hsort, sorted_of_all_eq _ ts ?_, ?_⟩
      · intro x hx
        obtain ⟨r, hr, hrx⟩ := List.mem_map.mp hx
        rw [← hrx]
        exact processRows_ts_const ts (resolveId s) s.sample r hr
      · intro a ha b hb
        obtain ⟨r, hr, hra⟩ := List.mem_map.mp ha
        obtain ⟨q, hq, hqb⟩ := List.mem_map.mp hb
        rw [← hra, ← hqb, processRows_ts_const ts (resolveId s) s.sample q hq]
        exact hle r hr


/-- C3 (witness): the sortedness theorem applied to the concrete state
`w3State` with both bounds omitted. -/
theorem c3_get_data_sorted_witness :
    List.Sorted (· ≤ ·) (([⟨10, 1, 3⟩, ⟨20, 1, 4⟩] : List DataRow).map DataRow.ts) :=
  c3_get_data_sorted.1 w3State "a" none none 100 [⟨10, 1, 3⟩, ⟨20, 1, 4⟩] w3State
    (by decide) rfl

/-- C4: a stored schema version strictly greater than the number of known
migrations makes `setup_db` raise the SchemaTooNew exception, whatever the
rest of the database holds, before any migration statement executes or any
migration record is inserted. -/
theorem c4_schema_too_new (migs : List MigEntry) (d : Db)
    (h : migs.length < maxId d.migRecords) :
    setup_db migs d = (.error .schemaTooNew, { d with hasMigTable := true }, []) := by
  simp [setup_db, h]

/-- C4 (witness): the SchemaTooNew theorem at a one-entry migration list
against a version-2 database. -/
theorem c4_schema_too_new_witness :
    setup_db [.str "m1"] newerDb = (.error .schemaTooNew, { newerDb with hasMigTable := true }, []) :=
  c4_schema_too_new [.str "m1"] newerDb (by decide)

theorem applyMigs_all_valid :
    ∀ (migs : List MigEntry) (i : Nat) (d : Db) (ops : List String),
    (∀ m ∈ migs, migStmt m ≠ none) →
    ∃ d', applyMigs migs i d ops = (.ok (), d', ops ++ migs.filterMap migStmt) := by
  intro migs
  induction migs with
  | nil => intro i d ops _; exact ⟨d, by simp [applyMigs]⟩
  | cons m rest ih =>
    intro i d ops h
    have hm : migStmt m ≠ none := h m (List.mem_cons_self _ _)
    cases hs : migStmt m with
    | none => exact absurd hs hm
    | some sql =>
      obtain ⟨d', hd'⟩ := ih (i + 1)
        { d with migRecords := d.migRecords ++ [maxId d.migRecords + 1] }
        (ops ++ [sql]) (fun q hq => h q (List.mem_cons_of_mem _ hq))
      refine ⟨d', ?_⟩
      simp only [applyMigs, hs, hd', List.filterMap_cons, List.append_assoc]
      rfl

/-- C7: migrations run in strict list order, each at most once — the
statements executed are exactly those of `migrations[old_ver:]`, in list
order — and re-running `setup_db` against an already-current version
executes no statement, inserts no migration record, changes nothing and
does not error. -/
theorem c7_migrations_idempotent :
    (∀ (migs : List MigEntry) (d : Db),
      maxId d.migRecords = migs.length →
      setup_db migs d = (.ok (), { d with hasMigTable := true }, [])) ∧
    (∀ (migs : List MigEntry) (d : Db),
      (∀ m ∈ migs, migStmt m ≠ none) →
      maxId d.migRecords ≤ migs.length →
      ∃ d', setup_db migs d =
        (.ok (), d', (migs.drop (maxId d.migRecords)).filterMap migStmt)) := by
  constructor
  · intro migs d h
    have hlt : ¬ migs.length < maxId d.migRecords := by omega
    simp [setup_db, hlt, h, applyMigs]
  · intro migs d h hle
    have hlt : ¬ migs.length < maxId d.migRecords := by omega
    obtain ⟨d', hd'⟩ := applyMigs_all_valid (migs.drop (maxId d.migRecords)) 0
      { d with hasMigTable := true } []
      (fun q hq => h q (List.mem_of_mem_drop hq))
    exact ⟨d', by simp [setup_db, hlt, hd']⟩

/-- C7 (witness): re-running the two known migrations against the
version-2 database `currentDb` returns ok, executes nothing and writes
nothing. -/
theorem c7_migrations_idempotent_witness :
    setup_db [.str "m1", .str "m2"] currentDb =
      (.ok (), { currentDb with hasMigTable := true }, []) :=
  c7_migrations_idempotent.1 [.str "m1", .str "m2"] currentDb (by decide)

/-- A successful `ensure_tsi` run: possible under `canEnsure`; it never
touches the sample buffer and leaves the name cached. -/
theorem ensure_tsi_ok (s : PState) (name : String) (t : Nat) (h : canEnsure s name t) :
    ∃ i s', ensure_tsi s name t = (.ok i, s') ∧ s'.sample = s.sample ∧
      s'.inited = s.inited ∧ s'.tsi.lookup name = some i := by
  cases hc : s.tsi.lookup name with
  | some i => exact ⟨i, s, by simp [ensure_tsi, hc], rfl, rfl, hc⟩
  | none =>
    cases hf : findTsByNameType s.db.timeseries name t with
    | some r =>
      refine ⟨r.id, { s with tsi := dictSet s.tsi name r.id, tst := dictSet s.tst name r.ts_type }, ?_, rfl, rfl, ?_⟩
      · simp [ensure_tsi, hc, hf]
      · rw [lookup_dictSet, if_pos rfl]
    | none =>
      have hn : findTsByName s.db.timeseries name = none := by
        rcases h with h | h | h
        · exact absurd hc h
        · rw [hf] at h; simp at h
        · exact h
      refine ⟨nextTsId s.db.timeseries, { s with db := { s.db with timeseries := s.db.timeseries ++ [⟨nextTsId s.db.timeseries, name, t⟩], dataCommitted := s.db.dataCommitted ++ s.db.dataPending, dataPending := [] }, tsi := dictSet s.tsi name (nextTsId s.db.timeseries), tst := dictSet s.tst name t }, ?_, rfl, rfl, ?_⟩
      · simp [ensure_tsi, hc, hf, hn]
      · rw [lookup_dictSet, if_pos rfl]

/-- Iterating `ts_event` on a cached name adds 1 per call. -/
theorem iter_event_cached (name : String) :
    ∀ (k : Nat) (s : PState) (i : Nat) (j : Int),
    s.inited = true → s.tsi.lookup name = some i →
    (s.sample.lookup name).getD 0 = j →
    ∃ s', iter_ts_event name k s = (.ok (), s') ∧
      (s'.sample.lookup name).getD 0 = j + k ∧ s'.inited = true ∧
      s'.tsi.lookup name = some i := by
  intro k
  induction k with
  | zero =>
    intro s i j hin hc hs
    exact ⟨s, rfl, by simpa using hs, hin, hc⟩
  | succ m ih =>
    intro s i j hin hc hs
    have he : ensure_tsi s name TS_EVENT = (.ok i, s) := by simp [ensure_tsi, hc]
    have hstep : ts_event s name =
        (.ok (), { s with sample := dictSet s.sample name (j + 1) }) := by
      simp [ts_event, hin, he, hs]
    obtain ⟨s', h1, h2, h3, h4⟩ := ih { s with sample := dictSet s.sample name (j + 1) } i (j + 1)
      hin hc (by rw [lookup_dictSet, if_pos rfl]; rfl)
    refine ⟨s', ?_, ?_, h3, h4⟩
    · simp only [iter_ts_event, hstep, h1]
    · rw [h2]; push_cast; ring

/-- Successive `ts_variable` calls on a cached name: last write wins. -/
theorem run_vars_cached (name : String) :
    ∀ (vs : List Int) (s : PState) (i : Nat), s.tsi.lookup name = some i →
    ∃ s', run_ts_variables name vs s = (.ok (), s') ∧
      s'.tsi.lookup name = some i ∧
      (∀ v, vs.getLast? = some v → s'.sample.lookup name = some v) ∧
      (vs = [] → s' = s) := by
  intro vs
  induction vs with
  | nil => intro s i hc; exact ⟨s, rfl, hc, by simp, fun _ => rfl⟩
  | cons v rest ih =>
    intro s i hc
    have he : ensure_tsi s name TS_VARIABLE = (.ok i, s) := by simp [ensure_tsi, hc]
    have hstep : ts_variable s name v =
        (.ok (), { s with sample := dictSet s.sample name v }) := by
      simp [ts_variable, he]
    obtain ⟨s', h1, h2, h3, _⟩ := ih { s with sample := dictSet s.sample name v } i hc
    refine ⟨s', ?_, h2, ?_, fun h => List.noConfusion h⟩
    · simp only [run_ts_variables, hstep, h1]
    · cases rest with
      | nil =>
        intro w hw
        simp only [List.getLast?_singleton, Option.some.injEq] at hw
        have hs' : { s with sample := dictSet s.sample name v } = s' := by
          have h1c := h1
          simp only [run_ts_variables, Prod.mk.injEq] at h1c
          exact h1c.2
        rw [← hs', ← hw, lookup_dictSet, if_pos rfl]
      | cons w rest' =>
        intro u hu
        rw [List.getLast?_cons_cons] at hu
        exact h3 u hu

/-- C5: within one open window, an event (COUNTER) series bumped `k` times
holds value `k` at flush time — each `ts_event` adds exactly 1 — and a
variable (GAUGE) series set repeatedly holds the last value set; and the
flush inserts, for every buffered entry, a data row carrying exactly the
buffered value. -/
theorem c5_accumulation :
    (∀ (s : PState) (name : String) (k : Nat),
      s.inited = true → canEnsure s name TS_EVENT →
      (s.sample.lookup name).getD 0 = 0 →
      ∃ s', iter_ts_event name k s = (.ok (), s') ∧
        (s'.sample.lookup name).getD 0 = (k : Int)) ∧
    (∀ (s : PState) (name : String) (vs : List Int) (v : Int),
      canEnsure s name TS_VARIABLE →
      vs.getLast? = some v →
      ∃ s', run_ts_variables name vs s = (.ok (), s') ∧
        s'.sample.lookup name = some v) ∧
    (∀ (s : PState) (ts : Nat) (p : String × Int),
      p ∈ s.sample → (∀ q ∈ s.sample, resolveId s q.1 ≠ none) →
      (⟨ts, (resolveId s p.1).getD 0, p.2⟩ : DataRow) ∈ (store_sample ts s).2.db.dataPending) := by
  refine ⟨?_, ?_, ?_⟩
  · intro s name k hin hce hs0
    cases k with
    | zero => exact ⟨s, rfl, by simpa using hs0⟩
    | succ m =>
      obtain ⟨i, sE, hE, hsam, hin', hcache⟩ := ensure_tsi_ok s name TS_EVENT hce
      have hstep : ts_event s name =
          (.ok (), { sE with sample := dictSet s.sample name 1 }) := by
        simp [ts_event, hin, hE, hsam, hs0]
      obtain ⟨s', h1, h2, h3, h4⟩ := iter_event_cached name m
        { sE with sample := dictSet s.sample name 1 } i 1
        (by simpa [hin'] using hin) hcache
        (by rw [lookup_dictSet, if_pos rfl]; rfl)
      refine ⟨s', ?_, ?_⟩
      · simp only [iter_ts_event, hstep, h1]
      · rw [h2]; push_cast; ring
  · intro s name vs v hce hv
    cases vs with
    | nil => simp at hv
    | cons v0 rest =>
      obtain ⟨i, sE, hE, hsam, _, hcache⟩ := ensure_tsi_ok s name TS_VARIABLE hce
      have hstep : ts_variable s name v0 =
          (.ok (), { sE with sample := dictSet s.sample name v0 }) := by
        simp [ts_variable, hE, hsam]
      obtain ⟨s', h1, h2, h3, h4⟩ := run_vars_cached name rest
        { sE with sample := dictSet s.sample name v0 } i hcache
      refine ⟨s', ?_, ?_⟩
      · simp only [run_ts_variables, hstep, h1]
      · cases rest with
        | nil =>
          simp only [List.getLast?_singleton, Option.some.injEq] at hv
          rw [h4 rfl, ← hv, lookup_dictSet, if_pos rfl]
        | cons w rest' =>
          rw [List.getLast?_cons_cons] at hv
          exact h3 v hv
  · intro s ts p hp hres
    obtain ⟨s1, hst, hpend, _, _, _, _, _, _, _⟩ := store_sample_from_spec ts s.sample s
    obtain ⟨hrows, herr⟩ := processRows_all ts (resolveId s) s.sample hres
    have : (store_sample ts s).2 = s1 := by
      rw [show store_sample ts s = store_sample_from ts s.sample s from rfl, hst]
    rw [this, hpend, hrows]
    exact List.mem_append_right _ (List.mem_map_of_mem _ hp)

/-- C5 (witness): three events on a fresh series end with a buffered count
of 3. -/
theorem c5_accumulation_witness :
    ∃ s', iter_ts_event "e" 3 z5State = (.ok (), s') ∧
      (s'.sample.lookup "e").getD 0 = (3 : Int) :=
  c5_accumulation.1 z5State "e" 3 rfl (by decide) (by decide)

/-- Membership characterization of the range query with explicit bounds. -/
theorem get_data_mem (s : PState) (name : String) (i f t now : Nat)
    (rows : List DataRow) (s' : PState)
    (hres : resolveId s name = some i)
    (hgd : get_data s name (some f) (some t) now = (.ok rows, s')) :
    ∀ r, r ∈ rows ↔ (r ∈ db_visible s.db ∧ r.tsi = i ∧ f ≤ r.ts ∧ r.ts ≤ t) := by
  obtain ⟨sg, hg, hdb, _, _, _⟩ := get_tsi_ok s name i hres
  unfold get_data at hgd
  rw [hg] at hgd
  simp only [Prod.mk.injEq, Except.ok.injEq] at hgd
  obtain ⟨hrows, _⟩ := hgd
  intro r
  rw [← hrows]
  simp only [List.mem_filter, Bool.and_eq_true, beq_iff_eq, decide_eq_true_eq, hdb,
    Option.getD_some]
  tauto

/-- C6: with explicit bounds the range query returns all and only the
series' stored points with `from <= ts <= to` (both ends inclusive); an
omitted lower bound is the epoch 0 and an omitted upper bound is the
caller's now — so omitting both returns the series' full history
(every stored timestamp being at most now). -/
theorem c6_get_data_range :
    (∀ (s : PState) (name : String) (i f t now : Nat) (rows : List DataRow) (s' : PState),
      resolveId s name = some i →
      get_data s name (some f) (some t) now = (.ok rows, s') →
      ∀ r, r ∈ rows ↔ (r ∈ db_visible s.db ∧ r.tsi = i ∧ f ≤ r.ts ∧ r.ts ≤ t)) ∧
    (∀ (s : PState) (name : String) (now : Nat),
      get_data s name none none now = get_data s name (some 0) (some now) now) ∧
    (∀ (s : PState) (name : String) (i now : Nat) (rows : List DataRow) (s' : PState),
      resolveId s name = some i →
      (∀ r ∈ db_visible s.db, r.ts ≤ now) →
      get_data s name none none now = (.ok rows, s') →
      ∀ r, r ∈ rows ↔ (r ∈ db_visible s.db ∧ r.tsi = i)) := by
  refine ⟨fun s name i f t now rows s' hres hgd => get_data_mem s name i f t now rows s' hres hgd,
    fun s name now => rfl, ?_⟩
  intro s name i now rows s' hres hnow hgd
  have h := get_data_mem s name i 0 now now rows s' hres hgd
  intro r
  rw [h r]
  constructor
  · rintro ⟨h1, h2, _, _⟩; exact ⟨h1, h2⟩
  · rintro ⟨h1, h2⟩; exact ⟨h1, h2, Nat.zero_le _, hnow r h1⟩

/-- C6 (witness): the range query on `w3State` with bounds 10..15 returns
exactly the point at timestamp 10. -/
theorem c6_get_data_range_witness :
    ∀ r, r ∈ [(⟨10, 1, 3⟩ : DataRow)] ↔
      (r ∈ db_visible w3State.db ∧ r.tsi = 1 ∧ 10 ≤ r.ts ∧ r.ts ≤ 15) :=
  c6_get_data_range.1 w3State "a" 1 10 15 100 [⟨10, 1, 3⟩] w3State rfl rfl

/-- C8: a name never registered (absent from the cache and from the
timeseries table) makes `get_tsi` — and with it any range query — raise
the unknown-timeseries error, and the failed lookup creates nothing: the
state, in particular the timeseries table, is returned unchanged. -/
theorem c8_unknown_metric (s : PState) (name : String)
    (hc : s.tsi.lookup name = none)
    (ht : findTsByName s.db.timeseries name = none) :
    get_tsi s name = (.error .unknownMetric, s) ∧
    (∀ tsfrom tsto now, get_data s name tsfrom tsto now = (.error .unknownMetric, s)) := by
  have hr : resolveId s name = none := by
    unfold resolveId
    rw [hc, ht]
    rfl
  refine ⟨get_tsi_err s name hr, ?_⟩
  intro tsfrom tsto now
  simp [get_data, get_tsi_err s name hr]

/-- C8 (witness): querying the never-registered name `"nope"` errors and
leaves the state exactly as it was. -/
theorem c8_unknown_metric_witness :
    get_tsi w3State "nope" = (.error .unknownMetric, w3State) ∧
    (∀ tsfrom tsto now, get_data w3State "nope" tsfrom tsto now =
      (.error .unknownMetric, w3State)) :=
  c8_unknown_metric w3State "nope" rfl rfl

/-- C9: on a cache hit `ensure_tsi` returns the cached identifier with the
whole state untouched — no storage access, no error — for every requested
kind `k`, even one differing from the registered kind; in particular a
kind mismatch on a cached name is never detected and the stored kind never
changes. -/
theorem c9_ensure_cache_hit (s : PState) (name : String) (i k : Nat)
    (h : s.tsi.lookup name = some i) :
    ensure_tsi s name k = (.ok i, s) := by
  simp [ensure_tsi, h]

/-- C9 (witness): `"a"` is registered with kind 1 in `w3State`, yet
`ensure_tsi` with kind 2 happily returns the cached id 1 and changes
nothing. -/
theorem c9_ensure_cache_hit_witness :
    ensure_tsi w3State "a" 2 = (.ok 1, w3State) :=
  c9_ensure_cache_hit w3State "a" 1 2 rfl

/-- The assembled `"data"` dict after folding some rows onto an
accumulator: the last row with a given timestamp wins, earlier entries
surviving only for timestamps no later row has. -/
theorem get_stats_data_loop (rows : List DataRow) :
    ∀ (acc : List (Nat × Int)) (k : Nat),
    (rows.foldl (fun acc r => dictSet acc r.ts r.value) acc).lookup k =
      ((rows.reverse.find? (fun r => r.ts == k)).map DataRow.value).or (acc.lookup k) := by
  induction rows with
  | nil => intro acc k; simp
  | cons r rest ih =>
    intro acc k
    simp only [List.foldl_cons, List.reverse_cons, List.find?_append]
    rw [ih]
    cases hfind : rest.reverse.find? (fun q => q.ts == k) with
    | some q => simp
    | none =>
      simp only [Option.map_none', Option.none_or]
      rw [lookup_dictSet]
      by_cases hk : k = r.ts
      · subst hk
        simp [List.find?]
      · have : (r.ts == k) = false := by
          simp [beq_false_of_ne (fun h => hk h.symm)]
        simp [List.find?, this, hk]

/-- C10: `get_stats` keys its `"data"` mapping by the timestamp, so the
entry at a timestamp holds the value of the last matching row in
iteration order, the keys are duplicate-free, and two stored rows sharing
a timestamp collapse into one entry — the result can have strictly fewer
entries than there are matching rows. -/
theorem c10_get_stats_collapse :
    (∀ (rows : List DataRow) (k : Nat),
      (get_stats_data rows).lookup k =
        (rows.reverse.find? (fun r => r.ts == k)).map DataRow.value) ∧
    (∀ rows : List DataRow, ((get_stats_data rows).map Prod.fst).Nodup) ∧
    (get_stats_data [⟨5, 1, 10⟩, ⟨5, 1, 20⟩] = [(5, 20)] ∧
      (get_stats_data [⟨5, 1, 10⟩, ⟨5, 1, 20⟩]).length <
        ([⟨5, 1, 10⟩, ⟨5, 1, 20⟩] : List DataRow).length) := by
  refine ⟨?_, ?_, rfl, by decide⟩
  · intro rows k
    rw [get_stats_data, get_stats_data_loop rows [] k]
    simp
  · intro rows
    rw [get_stats_data]
    have : ∀ (l : List DataRow) (acc : List (Nat × Int)), (acc.map Prod.fst).Nodup →
        ((l.foldl (fun acc r => dictSet acc r.ts r.value) acc).map Prod.fst).Nodup := by
      intro l
      induction l with
      | nil => intro acc h; simpa using h
      | cons r rest ih =>
        intro acc h
        simp only [List.foldl_cons]
        exact ih _ (nodup_keys_dictSet acc r.ts r.value h)
    exact this rows [] (by simp)
